import Mathlib

/-!
A verification development for the butanex YAML-merge package (merge.go).

The Go code is embedded shallowly:

* The generic YAML tree (`any` holding `map[string]any`, `[]any`, or a
  scalar) becomes the mutual inductive family `Value` / `ValueList` /
  `EntryList`.  Go maps are modelled as association lists; `dst[key] = v`
  becomes `insertE` (replace-or-append) and `dst[key]` becomes `lookupE`.
  Map iteration follows the list order of the embedding.
* In-place mutation is modelled by explicit state passing: every function
  returns the tree it would have mutated.  `resolvePathsValue`, whose Go
  version both mutates its argument in place and returns a candidate
  replacement plus an ok flag, returns a pair
  `(value after in-place side effects, candidate replacement when ok)`.
* `panic` (in `addPolicy`) and `error` returns become `Except`.
* `slices.SortFunc` (an arbitrary comparator-sorted permutation) is
  realised by insertion sort with the same comparator.
* `filepath.Join` is modelled as `pathJoin` (separator insertion; the
  `Clean` post-pass is omitted, all inputs considered are already clean).
* File loading and YAML (de)serialisation are outside the embedded core:
  documents enter `mergeDocs` already parsed, paired with the directory
  (`fileRoot`) they were loaded from.
-/

mutual
/-- The YAML document tree of merge.go (`any` values): a scalar
(string/int/bool/null), a sequence (`[]any`), or a mapping
(`map[string]any`, modelled as an association list). -/
inductive Value where
  | str (s : String)
  | num (n : Int)
  | boolv (b : Bool)
  | null
  | seq (elems : ValueList)
  | mapv (entries : EntryList)
deriving DecidableEq, Repr

/-- A `[]any` of tree values. -/
inductive ValueList where
  | nil
  | cons (v : Value) (vs : ValueList)
deriving DecidableEq, Repr

/-- A `map[string]any`, modelled as an ordered association list with
unique keys (YAML mappings have unique keys). -/
inductive EntryList where
  | nil
  | cons (k : String) (v : Value) (es : EntryList)
deriving DecidableEq, Repr
end

/-- Go `dst[key]` map read. -/
def lookupE : EntryList → String → Option Value
  | .nil, _ => none
  | .cons k0 v0 es, k => if k0 = k then some v0 else lookupE es k

/-- Go `dst[key] = v` map write: replace the value at the key if present,
otherwise add the binding. -/
def insertE : EntryList → String → Value → EntryList
  | .nil, k, v => .cons k v .nil
  | .cons k0 v0 es, k, v =>
    if k0 = k then .cons k0 v es else .cons k0 v0 (insertE es k v)

/-- Concatenation of association lists (used to state iteration-order
properties of the merge loop). -/
def appendE : EntryList → EntryList → EntryList
  | .nil, fs => fs
  | .cons k v es, fs => .cons k v (appendE es fs)

/-- Go `append(dvv, sv...)` on `[]any`. -/
def appendVL : ValueList → ValueList → ValueList
  | .nil, ws => ws
  | .cons v vs, ws => .cons v (appendVL vs ws)

/-- Length of a `[]any`. -/
def lengthVL : ValueList → Nat
  | .nil => 0
  | .cons _ vs => lengthVL vs + 1

/-- Indexing into a `[]any`. -/
def getVL? : ValueList → Nat → Option Value
  | .nil, _ => none
  | .cons v _, 0 => some v
  | .cons _ vs, n + 1 => getVL? vs n

/-- Membership in a `[]any`. -/
def memVL (v : Value) : ValueList → Prop
  | .nil => False
  | .cons w ws => v = w ∨ memVL v ws

/-- Helper for the Go string predicates: `pat` is a leading run of `s`,
compared character by character. -/
def startsWithCL : List Char → List Char → Bool
  | _, [] => true
  | [], _ :: _ => false
  | a :: as, b :: bs => a.toNat == b.toNat && startsWithCL as bs

/-- Go `strings.HasPrefix`. -/
def strStartsWith (s pat : String) : Bool := startsWithCL s.data pat.data

/-- Go `strings.HasSuffix`. -/
def strEndsWith (s pat : String) : Bool := startsWithCL s.data.reverse pat.data.reverse

/-- Lexicographic character comparison underlying Go `cmp.Compare` on
strings (byte order and character order agree on the ASCII patterns
involved). -/
def compareCharList : List Char → List Char → Int
  | [], [] => 0
  | [], _ :: _ => -1
  | _ :: _, [] => 1
  | a :: as, b :: bs =>
    if a.toNat < b.toNat then -1 else if b.toNat < a.toNat then 1 else compareCharList as bs

/-- merge.go `policyEntry[bool]`: a compiled pattern with its resolved
policy and relative/absolute flag. -/
structure PolicyEntry where
  pattern : String
  policy : Bool
  isRelative : Bool
deriving DecidableEq, Repr

/-- merge.go `policyEntry.match`: a relative entry matches by suffix, an
absolute entry by exact equality. -/
def PolicyEntry.matches (e : PolicyEntry) (contextPath : String) : Bool :=
  if e.isRelative && strEndsWith contextPath e.pattern then true
  else if e.pattern == contextPath then true
  else false

/-- merge.go `mergePolicy`: the compiled conflict-resolution set, the
default flag, and the path-resolution set. -/
structure MergePolicy where
  overwrite : List PolicyEntry
  defaultOverwrite : Bool
  resolvePaths : List PolicyEntry
deriving Repr

/-- The scan inside `mergePolicy.isOverwrite`: the policy of the first
entry, in list order, that matches the context path. -/
def firstMatch : List PolicyEntry → String → Option Bool
  | [], _ => none
  | e :: es, cp => if e.matches cp then some e.policy else firstMatch es cp

/-- merge.go `mergePolicy.isOverwrite`: first matching entry wins,
otherwise the configured default. -/
def MergePolicy.isOverwrite (m : MergePolicy) (contextPath : String) : Bool :=
  (firstMatch m.overwrite contextPath).getD m.defaultOverwrite

/-- merge.go `mergePolicy.resolvePath`: true iff some entry of the
path-resolution set matches. -/
def MergePolicy.resolvePath (m : MergePolicy) (contextPath : String) : Bool :=
  m.resolvePaths.any (fun e => e.matches contextPath)

/-- merge.go `compareBool`. -/
def compareBool (a b : Bool) : Int :=
  if a == b then 0 else if a then 1 else -1

/-- Go `cmp.Compare` on strings. -/
def compareStr (a b : String) : Int :=
  compareCharList a.data b.data

/-- The comparator passed to `slices.SortFunc` in `buildPolicy`:
`cmp.Or(compareBool(a.isRelative, b.isRelative), cmp.Compare(a.pattern, b.pattern))`. -/
def compareEntry (a b : PolicyEntry) : Int :=
  let c := compareBool a.isRelative b.isRelative
  if c != 0 then c else compareStr a.pattern b.pattern

/-- Non-strict order induced by `compareEntry`. -/
def entryLE (a b : PolicyEntry) : Bool :=
  compareEntry a b ≤ 0

/-- Insertion step of the sort realising `slices.SortFunc`. -/
def insertSorted (x : PolicyEntry) : List PolicyEntry → List PolicyEntry
  | [] => [x]
  | y :: ys => if entryLE x y then x :: y :: ys else y :: insertSorted x ys

/-- The `slices.SortFunc(overwrite, ...)` call of `buildPolicy`: a
permutation sorted by `compareEntry` (absolute entries before relative
entries, each group ordered by pattern string). -/
def sortEntries : List PolicyEntry → List PolicyEntry
  | [] => []
  | x :: xs => insertSorted x (sortEntries xs)

/-- merge.go `addPolicy`: reject a pattern already present with a
different policy (the Go code panics; modelled as `Except.error`), then
normalise a pattern with neither a `.` nor a `$.` lead to `$.`-absolute,
and compile it.  Note the conflict check compares the raw incoming
pattern against the stored (already normalised) ones, exactly as the
source does. -/
def addPolicy (policies : List PolicyEntry) (pattern : String) (policy : Bool) :
    Except Unit (List PolicyEntry) :=
  if policies.any (fun p => p.pattern == pattern && p.policy != policy) then
    .error ()
  else
    let pattern2 :=
      if !strStartsWith pattern "." && !strStartsWith pattern "$." then "$." ++ pattern
      else pattern
    .ok (policies ++ [⟨pattern2, policy, strStartsWith pattern2 "."⟩])

/-- One of the `for _, pattern := range ...` loops of `buildPolicy`,
feeding each pattern of a list through `addPolicy`. -/
def addPolicyList (policies : List PolicyEntry) (pats : List String) (policy : Bool) :
    Except Unit (List PolicyEntry) :=
  match pats with
  | [] => .ok policies
  | p :: rest =>
    match addPolicy policies p policy with
    | .error e => .error e
    | .ok l2 => addPolicyList l2 rest policy

/-- merge.go `Options`. -/
structure Options where
  FilesDir : String := ""
  ResolvePath : List String := []
  DefaultOverWrite : Bool := false
  Overwrite : List String := []
  Append : List String := []

/-- merge.go `buildPolicy`: compile overwrite patterns (policy `true`),
then append patterns (policy `false`), sort the union, and compile the
path-resolution patterns. -/
def buildPolicy (c : Options) : Except Unit MergePolicy :=
  match addPolicyList [] c.Overwrite true with
  | .error e => .error e
  | .ok l1 =>
    match addPolicyList l1 c.Append false with
    | .error e => .error e
    | .ok l2 =>
      match addPolicyList [] c.ResolvePath true with
      | .error e => .error e
      | .ok rp => .ok ⟨sortEntries l2, c.DefaultOverWrite, rp⟩

/-- `filepath.Join` for the clean inputs used here: join with a `/`,
returning the other part when one is empty. -/
def pathJoin (dir p : String) : String :=
  if dir = "" then p else if p = "" then dir else dir ++ "/" ++ p

/-!
The resolver pass of merge.go, written with explicit state passing.
`resolvePathsValue` models Go's pair of an in-place mutation and a
`(value, ok)` return: the first component is the value after the
in-place side effects (mapping entries rewritten), the second is `some`
replacement exactly when Go returns `ok = true`.
-/
mutual
/-- merge.go `resolvePathsValue`.  A sequence is offered as a replacement
only when every element produced a replacement (`len(updated) == len(v)`);
a mapping is resolved in place and never offered; a string is offered
when `resolvePath` matches its context path. -/
def resolvePathsValue (mp : MergePolicy) (v : Value) (fileRoot ctxpath : String) :
    Value × Option Value :=
  match v with
  | .seq vs =>
    let updated := resolvePathsUpdated mp vs fileRoot ctxpath
    (.seq (resolvePathsElems mp vs fileRoot ctxpath),
      if lengthVL updated = lengthVL vs then some (.seq updated) else none)
  | .mapv es => (.mapv (resolvePaths mp es fileRoot ctxpath), none)
  | .str s =>
    if mp.resolvePath ctxpath then (.str s, some (.str (pathJoin fileRoot s)))
    else (.str s, none)
  | v => (v, none)

/-- The elements of a sequence after the pass's in-place side effects
(sequence elements share the sequence's context path). -/
def resolvePathsElems (mp : MergePolicy) (vs : ValueList) (fileRoot ctxpath : String) :
    ValueList :=
  match vs with
  | .nil => .nil
  | .cons v rest =>
    .cons (resolvePathsValue mp v fileRoot ctxpath).1
      (resolvePathsElems mp rest fileRoot ctxpath)

/-- The `updated` slice of merge.go's sequence case: the successful
replacements only, in order. -/
def resolvePathsUpdated (mp : MergePolicy) (vs : ValueList) (fileRoot ctxpath : String) :
    ValueList :=
  match vs with
  | .nil => .nil
  | .cons v rest =>
    match (resolvePathsValue mp v fileRoot ctxpath).2 with
    | some w => .cons w (resolvePathsUpdated mp rest fileRoot ctxpath)
    | none => resolvePathsUpdated mp rest fileRoot ctxpath

/-- merge.go `resolvePaths`: rewrite each entry whose value produced a
replacement, extending the context path with `"." + key`. -/
def resolvePaths (mp : MergePolicy) (object : EntryList) (fileRoot ctxpath : String) :
    EntryList :=
  match object with
  | .nil => .nil
  | .cons k v rest =>
    let r := resolvePathsValue mp v fileRoot (ctxpath ++ "." ++ k)
    .cons k (r.2.getD r.1) (resolvePaths mp rest fileRoot ctxpath)
end

/-- The errors of merge.go `mergeMapping`, by format string:
`mismatch` for "key[%s] mismatch: src(%T) vs dst(%T)`,
`seqDup` for "key[%s] duplicated (overrwrite=false)",
`scalarDup` for "duplicate Keys(overrwrite=false): %s". -/
inductive MergeErr where
  | mismatch (cpath : String)
  | seqDup (cpath : String)
  | scalarDup (cpath : String)
deriving DecidableEq, Repr

/-!
merge.go `mergeMapping`, split into the per-key loop body
(`mergeValue`) and the loop over the source keys (`mergeMapping`).
The loop body keeps the Go `switch` structure, including the order of
the boolean cases of the sequence branch.
-/
mutual
/-- The body of `mergeMapping`'s `for key, sv := range src` loop for a
single key, dispatching on the structural type of the source value. -/
def mergeValue (mp : MergePolicy) (dst : EntryList) (key : String) (sv : Value)
    (ctxpath : String) : Except MergeErr EntryList :=
  let cpath := ctxpath ++ "." ++ key
  match sv with
  | .seq svl =>
    let dv? := lookupE dst key
    let dexists := dv?.isSome
    let isSlice := match dv? with | some (.seq _) => true | _ => false
    let dvv : ValueList := match dv? with | some (.seq l) => l | _ => .nil
    if !dexists then .ok (insertE dst key (.seq svl))
    else if dexists && isSlice then
      let sv2 := if !(mp.isOverwrite ctxpath) then appendVL dvv svl else svl
      .ok (insertE dst key (.seq sv2))
    else if dexists && !isSlice then .error (.mismatch cpath)
    else if dexists && mp.isOverwrite ctxpath then .error (.seqDup cpath)
    else .ok dst
  | .mapv svm =>
    match lookupE dst key with
    | none =>
      match mergeMapping mp .nil svm cpath with
      | .error e => .error e
      | .ok dv2 => .ok (insertE dst key (.mapv dv2))
    | some (.mapv dvm) =>
      match mergeMapping mp dvm svm cpath with
      | .error e => .error e
      | .ok dv2 => .ok (insertE dst key (.mapv dv2))
    | some _ => .error (.mismatch cpath)
  | _ =>
    match lookupE dst key with
    | some dv =>
      if sv = dv then .ok dst
      else if !(mp.isOverwrite ctxpath) then .error (.scalarDup cpath)
      else .ok (insertE dst key sv)
    | none => .ok (insertE dst key sv)

/-- merge.go `mergeMapping`: fold `mergeValue` over the source keys in
iteration order, stopping at the first error. -/
def mergeMapping (mp : MergePolicy) (dst : EntryList) (src : EntryList)
    (ctxpath : String) : Except MergeErr EntryList :=
  match src with
  | .nil => .ok dst
  | .cons k v rest =>
    match mergeValue mp dst k v ctxpath with
    | .error e => .error e
    | .ok d2 => mergeMapping mp d2 rest ctxpath
end

/-- merge.go `merge.mergeBytes` after YAML decoding: run the resolver
pass when the file root is nonempty, then install the document as the
root (first document) or merge it into the accumulated root. -/
def mergeBytes (mp : MergePolicy) (root : Option EntryList) (fileRoot : String)
    (config : EntryList) : Except MergeErr EntryList :=
  let config := if fileRoot ≠ "" then resolvePaths mp config fileRoot "$" else config
  match root with
  | none => .ok config
  | some r => mergeMapping mp r config "$"

/-- The document loop of merge.go `MergeFiles`: documents (each paired
with its source directory) processed strictly in caller order, aborting
at the first error. -/
def mergeDocs (mp : MergePolicy) (root : Option EntryList) :
    List (String × EntryList) → Except MergeErr (Option EntryList)
  | [] => .ok root
  | (fileRoot, config) :: rest =>
    match mergeBytes mp root fileRoot config with
    | .error e => .error e
    | .ok r => mergeDocs mp (some r) rest

/-- Top-level error of `MergeFiles`: a configuration conflict (Go panic
in `buildPolicy`) or a merge-time error. -/
inductive MergeFilesErr where
  | configConflict
  | mergeErr (e : MergeErr)
deriving DecidableEq, Repr

/-- merge.go `MergeFiles`, minus file IO and YAML (de)serialisation:
build the policy once, then fold the documents. -/
def MergeFiles (options : Options) (docs : List (String × EntryList)) :
    Except MergeFilesErr (Option EntryList) :=
  match buildPolicy options with
  | .error _ => .error .configConflict
  | .ok mp =>
    match mergeDocs mp none docs with
    | .error e => .error (.mergeErr e)
    | .ok r => .ok r

/-- Membership through `insertSorted`. -/
lemma mem_insertSorted {z x : PolicyEntry} : ∀ {l : List PolicyEntry},
    z ∈ insertSorted x l → z = x ∨ z ∈ l := by
  intro l
  induction l with
  | nil =>
    intro h
    rw [insertSorted] at h
    exact .inl (List.mem_singleton.mp h)
  | cons y ys ih =>
    intro h
    rw [insertSorted] at h
    split at h
    · rcases List.mem_cons.mp h with rfl | h
      · exact .inl rfl
      · exact .inr h
    · rcases List.mem_cons.mp h with rfl | h
      · exact .inr (List.mem_cons_self _ _)
      · rcases ih h with h' | h'
        · exact .inl h'
        · exact .inr (List.mem_cons_of_mem _ h')

/-- Relative entries never precede absolute entries under the
`buildPolicy` comparator order. -/
def relOrder (a b : PolicyEntry) : Prop :=
  a.isRelative = true → b.isRelative = true

lemma entryLE_relOrder {a b : PolicyEntry} (h : entryLE a b = true) : relOrder a b := by
  intro ha
  by_cases hb : b.isRelative = true
  · exact hb
  · simp only [entryLE, compareEntry, compareBool, ha, Bool.not_eq_true] at h hb
    simp [hb] at h

lemma not_entryLE_relOrder {a b : PolicyEntry} (h : entryLE a b = false) : relOrder b a := by
  intro hb
  by_cases ha : a.isRelative = true
  · exact ha
  · simp only [entryLE, compareEntry, compareBool, Bool.not_eq_true] at h ha
    simp [ha, hb] at h

lemma relOrder_trans {a b c : PolicyEntry} (h1 : relOrder a b) (h2 : relOrder b c) :
    relOrder a c :=
  fun ha => h2 (h1 ha)

lemma pairwise_insertSorted {x : PolicyEntry} : ∀ {l : List PolicyEntry},
    l.Pairwise relOrder → (insertSorted x l).Pairwise relOrder := by
  intro l
  induction l with
  | nil =>
    intro _
    rw [insertSorted]
    exact List.pairwise_singleton _ _
  | cons y ys ih =>
    intro h
    rcases List.pairwise_cons.mp h with ⟨hy, hys⟩
    rw [insertSorted]
    split
    next hc =>
      refine List.pairwise_cons.mpr ⟨?_, h⟩
      intro z hz
      rcases List.mem_cons.mp hz with rfl | hz
      · exact entryLE_relOrder hc
      · exact relOrder_trans (entryLE_relOrder hc) (hy z hz)
    next hc =>
      have hcf : entryLE x y = false := by
        cases hxy : entryLE x y
        · rfl
        · exact absurd hxy hc
      refine List.pairwise_cons.mpr ⟨?_, ih hys⟩
      intro z hz
      rcases mem_insertSorted hz with rfl | hz
      · exact not_entryLE_relOrder hcf
      · exact hy z hz

lemma pairwise_sortEntries : ∀ l : List PolicyEntry, (sortEntries l).Pairwise relOrder
  | [] => by simp [sortEntries]
  | x :: xs => pairwise_insertSorted (pairwise_sortEntries xs)

/-- On a list where no relative entry precedes an absolute one, if some
absolute entry matches and every matching absolute entry resolves to
`b`, the first-match scan answers `b` no matter which relative entries
also match. -/
lemma firstMatch_of_grouped {p : String} {b : Bool} : ∀ {l : List PolicyEntry},
    l.Pairwise relOrder →
    (∃ e ∈ l, e.isRelative = false ∧ e.matches p = true) →
    (∀ e ∈ l, e.isRelative = false → e.matches p = true → e.policy = b) →
    firstMatch l p = some b := by
  intro l
  induction l with
  | nil =>
    intro _ habs _
    simp at habs
  | cons e es ih =>
    intro hg habs hall
    rcases List.pairwise_cons.mp hg with ⟨he, hes⟩
    rw [firstMatch]
    split
    next hm =>
      cases hr : e.isRelative
      · exact congrArg some (hall e (List.mem_cons_self _ _) hr hm)
      · exfalso
        rcases habs with ⟨a, ha, haR, haM⟩
        rcases List.mem_cons.mp ha with rfl | ha
        · rw [hr] at haR
          cases haR
        · have haT : a.isRelative = true := he a ha hr
          rw [haT] at haR
          cases haR
    next hm =>
      rcases habs with ⟨a, ha, haR, haM⟩
      rcases List.mem_cons.mp ha with rfl | ha
      · exact absurd haM hm
      · exact ih hes ⟨a, ha, haR, haM⟩
          (fun x hx hxr hxm => hall x (List.mem_cons_of_mem _ hx) hxr hxm)

/-- The conflict-resolution set produced by `buildPolicy` is always a
`sortEntries` image. -/
lemma buildPolicy_overwrite_sorted (c : Options) (mp : MergePolicy)
    (hb : buildPolicy c = .ok mp) : ∃ l, mp.overwrite = sortEntries l := by
  unfold buildPolicy at hb
  split at hb
  · exact Except.noConfusion hb
  · split at hb
    · exact Except.noConfusion hb
    · split at hb
      · exact Except.noConfusion hb
      · injection hb with hb
        exact ⟨_, congrArg MergePolicy.overwrite hb.symm⟩

/-- C5: for every context path matched by both an absolute and a
relative entry of the conflict-resolution set, `isOverwrite` answers the
resolved kind of the matching absolute entries (absolute matches win
purely by the fixed group ordering). -/
theorem c5_absolute_precedence (c : Options) (mp : MergePolicy) (p : String) (b : Bool)
    (hb : buildPolicy c = .ok mp)
    (habs : ∃ e ∈ mp.overwrite, e.isRelative = false ∧ e.matches p = true)
    (hall : ∀ e ∈ mp.overwrite, e.isRelative = false → e.matches p = true → e.policy = b)
    (_hrel : ∃ e ∈ mp.overwrite, e.isRelative = true ∧ e.matches p = true) :
    mp.isOverwrite p = b := by
  obtain ⟨l, hl⟩ := buildPolicy_overwrite_sorted c mp hb
  have hg : mp.overwrite.Pairwise relOrder := hl ▸ pairwise_sortEntries l
  rw [MergePolicy.isOverwrite, firstMatch_of_grouped hg habs hall]
  rfl

/-- C5 witness: `overwritePatterns=[".local"]`, `appendPatterns=["$.storage.files.local"]`
resolve `$.storage.files.local` to append (`false`), absolute wins. -/
theorem c5_absolute_precedence_witness :
    buildPolicy {Overwrite := [".local"], Append := ["$.storage.files.local"]}
      = .ok ⟨[⟨"$.storage.files.local", false, false⟩, ⟨".local", true, true⟩], false, []⟩ ∧
    MergePolicy.isOverwrite
      ⟨[⟨"$.storage.files.local", false, false⟩, ⟨".local", true, true⟩], false, []⟩
      "$.storage.files.local" = false :=
  ⟨rfl,
    c5_absolute_precedence
      {Overwrite := [".local"], Append := ["$.storage.files.local"]}
      ⟨[⟨"$.storage.files.local", false, false⟩, ⟨".local", true, true⟩], false, []⟩
      "$.storage.files.local" false rfl (by decide) (by decide) (by decide)⟩

/-- Structural induction on `EntryList` alone (the auto-generated
recursor of the mutual block has several motives, which the `induction`
tactic does not accept). -/
def EntryList.recAux {motive : EntryList → Prop} (nil : motive .nil)
    (cons : ∀ k v es, motive es → motive (.cons k v es)) : ∀ es, motive es
  | .nil => nil
  | .cons k v es => cons k v es (EntryList.recAux nil cons es)

/-- Structural induction on `ValueList` alone. -/
def ValueList.recAux {motive : ValueList → Prop} (nil : motive .nil)
    (cons : ∀ v vs, motive vs → motive (.cons v vs)) : ∀ vs, motive vs
  | .nil => nil
  | .cons v vs => cons v vs (ValueList.recAux nil cons vs)

/-- The structural-type test of the Go type switch: is the value a
Sequence (`[]any`)? -/
def isSeqV : Value → Bool
  | .seq _ => true
  | _ => false

/-- Is the value a Mapping (`map[string]any`)? -/
def isMapV : Value → Bool
  | .mapv _ => true
  | _ => false

/-- C1: the merge loop queries `isOverwrite` with the parent mapping's
path, not the key's own path.  With `Overwrite = ["$.list"]` the compiled
entry does make `$.list` an overwrite path, but at the merge step for key
`list` the code asks about `$`, which no pattern can match, so
`{list:[1,2]}` then `{list:[3]}` concatenates to `{list:[1,2,3]}`
instead of overwriting to `{list:[3]}`. -/
theorem c1_overwrite_queried_at_parent_path :
    buildPolicy {Overwrite := ["$.list"]} = .ok ⟨[⟨"$.list", true, false⟩], false, []⟩ ∧
    MergePolicy.isOverwrite ⟨[⟨"$.list", true, false⟩], false, []⟩ "$.list" = true ∧
    MergePolicy.isOverwrite ⟨[⟨"$.list", true, false⟩], false, []⟩ "$" = false ∧
    mergeDocs ⟨[⟨"$.list", true, false⟩], false, []⟩ none
      [("", .cons "list" (.seq (.cons (.num 1) (.cons (.num 2) .nil))) .nil),
       ("", .cons "list" (.seq (.cons (.num 3) .nil)) .nil)]
      = .ok (some (.cons "list"
          (.seq (.cons (.num 1) (.cons (.num 2) (.cons (.num 3) .nil)))) .nil)) :=
  ⟨rfl, rfl, rfl, rfl⟩

/-- C2: `addPolicy` checks a conflict against the raw incoming pattern
before normalising it, so `Overwrite = ["foo"]` and `Append = ["foo"]`
both normalise to `$.foo` yet construction succeeds, leaving the policy
set with the same pattern string carrying both resolved kinds. -/
theorem c2_conflicting_policies_coexist :
    buildPolicy {Overwrite := ["foo"], Append := ["foo"]} =
      .ok ⟨[⟨"$.foo", true, false⟩, ⟨"$.foo", false, false⟩], false, []⟩ ∧
    ∃ e1 ∈ ([⟨"$.foo", true, false⟩, ⟨"$.foo", false, false⟩] : List PolicyEntry),
      ∃ e2 ∈ ([⟨"$.foo", true, false⟩, ⟨"$.foo", false, false⟩] : List PolicyEntry),
        e1.pattern = e2.pattern ∧ e1.policy ≠ e2.policy :=
  ⟨rfl, by decide⟩

/-- C3 counterexample: `{a:[1]}` merged with `{a:1}` (a Sequence in one
document, a Scalar in the other at `$.a`) under `DefaultOverWrite = true`
succeeds with `{a:1}` — no structural-type-mismatch error is reported,
so the mismatch error does not fire "regardless of overwrite settings"
for every Sequence-vs-other combination. -/
theorem c3_counterexample_scalar_over_seq_no_error :
    mergeMapping ⟨[], true, []⟩ (.cons "a" (.seq (.cons (.num 1) .nil)) .nil)
      (.cons "a" (.num 1) .nil) "$" = .ok (.cons "a" (.num 1) .nil) := rfl

/-- C3 (amended): when the source value at a key is a Sequence and the
destination holds a non-Sequence, or the source value is a Mapping and
the destination holds a non-Mapping, the merge step fails with a
structural-type-mismatch error naming the key's context path, regardless
of overwrite settings.  (When the source value is a Scalar the scalar
rules apply instead.) -/
theorem c3_amended_structural_mismatch (mp : MergePolicy) (dst : EntryList) (k : String)
    (sv dv : Value) (rest : EntryList) (cp : String)
    (hdv : lookupE dst k = some dv)
    (h : (isSeqV sv = true ∧ isSeqV dv = false) ∨ (isMapV sv = true ∧ isMapV dv = false)) :
    mergeMapping mp dst (.cons k sv rest) cp = .error (.mismatch (cp ++ "." ++ k)) := by
  have hv : mergeValue mp dst k sv cp = .error (.mismatch (cp ++ "." ++ k)) := by
    rcases h with ⟨hs, hd⟩ | ⟨hs, hd⟩
    · cases sv with
      | seq svl =>
        cases dv with
        | seq dvl => exact absurd hd (by simp [isSeqV])
        | str s => simp [mergeValue, hdv]
        | num n => simp [mergeValue, hdv]
        | boolv b => simp [mergeValue, hdv]
        | null => simp [mergeValue, hdv]
        | mapv m => simp [mergeValue, hdv]
      | str s => exact absurd hs (by simp [isSeqV])
      | num n => exact absurd hs (by simp [isSeqV])
      | boolv b => exact absurd hs (by simp [isSeqV])
      | null => exact absurd hs (by simp [isSeqV])
      | mapv m => exact absurd hs (by simp [isSeqV])
    · cases sv with
      | mapv svm =>
        cases dv with
        | mapv dvm => exact absurd hd (by simp [isMapV])
        | str s => simp [mergeValue, hdv]
        | num n => simp [mergeValue, hdv]
        | boolv b => simp [mergeValue, hdv]
        | null => simp [mergeValue, hdv]
        | seq l => simp [mergeValue, hdv]
      | str s => exact absurd hs (by simp [isMapV])
      | num n => exact absurd hs (by simp [isMapV])
      | boolv b => exact absurd hs (by simp [isMapV])
      | null => exact absurd hs (by simp [isMapV])
      | seq l => exact absurd hs (by simp [isMapV])
  rw [mergeMapping, hv]

/-- C3 witness: the claim's own example `{a:[1]}` merged with `{a:{b:1}}`
fails with the mismatch error at `$.a`. -/
theorem c3_amended_structural_mismatch_witness :
    mergeMapping ⟨[], false, []⟩ (.cons "a" (.seq (.cons (.num 1) .nil)) .nil)
      (.cons "a" (.mapv (.cons "b" (.num 1) .nil)) .nil) "$" = .error (.mismatch "$.a") :=
  c3_amended_structural_mismatch ⟨[], false, []⟩
    (.cons "a" (.seq (.cons (.num 1) .nil)) .nil) "a"
    (.mapv (.cons "b" (.num 1) .nil)) (.seq (.cons (.num 1) .nil)) .nil "$"
    rfl (.inr ⟨rfl, rfl⟩)

/-- C6: when destination and source both hold Sequences at a key and the
policy query answers append (`false`), the merge step stores the
destination's elements followed by the source's elements, in order, and
the loop continues without error. -/
theorem c6_seq_append_concatenates (mp : MergePolicy) (dst : EntryList) (k : String)
    (dvl svl : ValueList) (rest : EntryList) (cp : String)
    (hdv : lookupE dst k = some (.seq dvl))
    (how : mp.isOverwrite cp = false) :
    mergeMapping mp dst (.cons k (.seq svl) rest) cp
      = mergeMapping mp (insertE dst k (.seq (appendVL dvl svl))) rest cp := by
  have hv : mergeValue mp dst k (.seq svl) cp
      = .ok (insertE dst k (.seq (appendVL dvl svl))) := by
    simp [mergeValue, hdv, how]
  rw [mergeMapping, hv]

/-- C6 witness: `{list:[1,2]}` then `{list:[3]}` under the default policy
concatenates to `{list:[1,2,3]}`. -/
theorem c6_seq_append_concatenates_witness :
    mergeMapping ⟨[], false, []⟩
        (.cons "list" (.seq (.cons (.num 1) (.cons (.num 2) .nil))) .nil)
        (.cons "list" (.seq (.cons (.num 3) .nil)) .nil) "$"
      = mergeMapping ⟨[], false, []⟩
        (insertE (.cons "list" (.seq (.cons (.num 1) (.cons (.num 2) .nil))) .nil)
          "list" (.seq (appendVL (.cons (.num 1) (.cons (.num 2) .nil))
            (.cons (.num 3) .nil)))) .nil "$" ∧
    mergeMapping ⟨[], false, []⟩
        (.cons "list" (.seq (.cons (.num 1) (.cons (.num 2) .nil))) .nil)
        (.cons "list" (.seq (.cons (.num 3) .nil)) .nil) "$"
      = .ok (.cons "list"
          (.seq (.cons (.num 1) (.cons (.num 2) (.cons (.num 3) .nil)))) .nil) :=
  ⟨c6_seq_append_concatenates ⟨[], false, []⟩
      (.cons "list" (.seq (.cons (.num 1) (.cons (.num 2) .nil))) .nil) "list"
      (.cons (.num 1) (.cons (.num 2) .nil)) (.cons (.num 3) .nil) .nil "$" rfl rfl,
    rfl⟩

/-- C8: a source Scalar deeply equal to the destination value at the same
key is a no-op for that key — the destination is unchanged and the loop
continues without error — under any overwrite policy. -/
theorem c8_equal_scalar_noop (mp : MergePolicy) (dst : EntryList) (k : String)
    (sv : Value) (rest : EntryList) (cp : String)
    (hs : isSeqV sv = false ∧ isMapV sv = false)
    (hdv : lookupE dst k = some sv) :
    mergeMapping mp dst (.cons k sv rest) cp = mergeMapping mp dst rest cp := by
  have hv : mergeValue mp dst k sv cp = .ok dst := by
    rcases hs with ⟨hs1, hs2⟩
    cases sv with
    | seq svl => exact absurd hs1 (by simp [isSeqV])
    | mapv svm => exact absurd hs2 (by simp [isMapV])
    | str s => simp [mergeValue, hdv]
    | num n => simp [mergeValue, hdv]
    | boolv b => simp [mergeValue, hdv]
    | null => simp [mergeValue, hdv]
  rw [mergeMapping, hv]

/-- C8 witness: merging `{a:1}` with `{a:1}` under an overwrite-by-default
policy leaves `{a:1}`, no error. -/
theorem c8_equal_scalar_noop_witness :
    mergeMapping ⟨[], true, []⟩ (.cons "a" (.num 1) .nil) (.cons "a" (.num 1) .nil) "$"
      = mergeMapping ⟨[], true, []⟩ (.cons "a" (.num 1) .nil) .nil "$" ∧
    mergeMapping ⟨[], true, []⟩ (.cons "a" (.num 1) .nil) (.cons "a" (.num 1) .nil) "$"
      = .ok (.cons "a" (.num 1) .nil) :=
  ⟨c8_equal_scalar_noop ⟨[], true, []⟩ (.cons "a" (.num 1) .nil) "a" (.num 1) .nil "$"
      ⟨rfl, rfl⟩ rfl,
    rfl⟩

/-- Appending further documents after a failing one cannot change the
reported error: the first failing document decides. -/
lemma mergeDocs_first_error (mp : MergePolicy) (fr : String) (cfg : EntryList)
    (ds2 : List (String × EntryList)) (e : MergeErr) :
    ∀ (ds1 : List (String × EntryList)) (root r : Option EntryList),
      mergeDocs mp root ds1 = .ok r →
      mergeBytes mp r fr cfg = .error e →
      mergeDocs mp root (ds1 ++ (fr, cfg) :: ds2) = .error e := by
  intro ds1
  induction ds1 with
  | nil =>
    intro root r h1 h2
    simp only [mergeDocs] at h1
    injection h1 with h1
    subst h1
    simp only [List.nil_append, mergeDocs, h2]
  | cons d rest ih =>
    intro root r h1 h2
    obtain ⟨fr0, cfg0⟩ := d
    simp only [mergeDocs] at h1
    rw [List.cons_append]
    simp only [mergeDocs]
    split at h1
    next e0 hB => exact Except.noConfusion h1
    next r1 hB => exact ih (some r1) r h1 h2

/-- Appending further keys after a failing one cannot change the reported
error: within one document, the first failing key in iteration order
decides. -/
lemma mergeMapping_first_error (mp : MergePolicy) (k : String) (v : Value)
    (src2 : EntryList) (cp : String) (e : MergeErr) :
    ∀ (src1 dst d1 : EntryList),
      mergeMapping mp dst src1 cp = .ok d1 →
      mergeValue mp d1 k v cp = .error e →
      mergeMapping mp dst (appendE src1 (.cons k v src2)) cp = .error e := by
  intro src1
  induction src1 using EntryList.recAux with
  | nil =>
    intro dst d1 h1 h2
    simp only [mergeMapping] at h1
    injection h1 with h1
    subst h1
    simp only [appendE, mergeMapping, h2]
  | cons k0 v0 rest ih =>
    intro dst d1 h1 h2
    simp only [mergeMapping] at h1
    rw [appendE]
    simp only [mergeMapping]
    split at h1
    next e0 hB => exact Except.noConfusion h1
    next d2 hB => exact ih d2 d1 h1 h2

/-- C4: every merge error aborts the whole operation at once, and the
error returned is the first one encountered processing documents in
caller order and, inside a document, keys in iteration order: whatever
documents or keys follow the first failing one never alter the result. -/
theorem c4_first_error_wins :
    (∀ (mp : MergePolicy) (root : Option EntryList) (ds1 : List (String × EntryList))
        (fr : String) (cfg : EntryList) (ds2 : List (String × EntryList))
        (r : Option EntryList) (e : MergeErr),
      mergeDocs mp root ds1 = .ok r →
      mergeBytes mp r fr cfg = .error e →
      mergeDocs mp root (ds1 ++ (fr, cfg) :: ds2) = .error e) ∧
    (∀ (mp : MergePolicy) (dst src1 : EntryList) (k : String) (v : Value)
        (src2 : EntryList) (cp : String) (d1 : EntryList) (e : MergeErr),
      mergeMapping mp dst src1 cp = .ok d1 →
      mergeValue mp d1 k v cp = .error e →
      mergeMapping mp dst (appendE src1 (.cons k v src2)) cp = .error e) :=
  ⟨fun mp root ds1 fr cfg ds2 r e h1 h2 =>
      mergeDocs_first_error mp fr cfg ds2 e ds1 root r h1 h2,
    fun mp dst src1 k v src2 cp d1 e h1 h2 =>
      mergeMapping_first_error mp k v src2 cp e src1 dst d1 h1 h2⟩

/-- C4 witness: `{a:1}` then `{a:2}` (default policy) fails with the
duplicate-key error at `$.a` even with a third document `{b:3}` queued
after it, and inside one document the key `"a"` failing after a clean
key `"b"` decides the error no matter what keys follow. -/
theorem c4_first_error_wins_witness :
    mergeDocs ⟨[], false, []⟩ none
      ([("", .cons "a" (.num 1) .nil)] ++
        ("", .cons "a" (.num 2) .nil) :: [("", .cons "b" (.num 3) .nil)])
      = .error (.scalarDup "$.a") ∧
    mergeMapping ⟨[], false, []⟩ (.cons "a" (.num 1) .nil)
      (appendE (.cons "b" (.num 2) .nil) (.cons "a" (.num 2) (.cons "c" (.num 3) .nil))) "$"
      = .error (.scalarDup "$.a") :=
  ⟨c4_first_error_wins.1 ⟨[], false, []⟩ none [("", .cons "a" (.num 1) .nil)]
      "" (.cons "a" (.num 2) .nil) [("", .cons "b" (.num 3) .nil)]
      (some (.cons "a" (.num 1) .nil)) (.scalarDup "$.a") rfl rfl,
    c4_first_error_wins.2 ⟨[], false, []⟩ (.cons "a" (.num 1) .nil)
      (.cons "b" (.num 2) .nil) "a" (.num 2) (.cons "c" (.num 3) .nil) "$"
      (.cons "a" (.num 1) (.cons "b" (.num 2) .nil)) (.scalarDup "$.a") rfl rfl⟩

/-- Does a merge result avoid the "key[...] duplicated (overrwrite=false)"
error of `mergeMapping`'s sequence branch? -/
def notSeqDup : Except MergeErr EntryList → Bool
  | .error (.seqDup _) => false
  | _ => true

mutual
/-- No single merge step can produce the sequence duplicate-key error:
the first three cases of the Go switch already cover every combination
of `exists` and `isSlice`. -/
lemma mergeValue_notSeqDup (mp : MergePolicy) (dst : EntryList) (key : String)
    (sv : Value) (cp : String) : notSeqDup (mergeValue mp dst key sv cp) = true := by
  cases sv with
  | seq svl =>
    cases hdk : lookupE dst key with
    | none => simp [mergeValue, hdk, notSeqDup]
    | some dv => cases dv <;> simp [mergeValue, hdk, notSeqDup]
  | mapv svm =>
    cases hdk : lookupE dst key with
    | none =>
      simp only [mergeValue, hdk]
      cases hm : mergeMapping mp .nil svm (cp ++ "." ++ key) with
      | error e =>
        have h := mergeMapping_notSeqDup mp .nil svm (cp ++ "." ++ key)
        rw [hm] at h
        exact h
      | ok dv2 => simp [notSeqDup]
    | some dv =>
      cases dv with
      | mapv dvm =>
        simp only [mergeValue, hdk]
        cases hm : mergeMapping mp dvm svm (cp ++ "." ++ key) with
        | error e =>
          have h := mergeMapping_notSeqDup mp dvm svm (cp ++ "." ++ key)
          rw [hm] at h
          exact h
        | ok dv2 => simp [notSeqDup]
      | str s => simp [mergeValue, hdk, notSeqDup]
      | num n => simp [mergeValue, hdk, notSeqDup]
      | boolv b => simp [mergeValue, hdk, notSeqDup]
      | null => simp [mergeValue, hdk, notSeqDup]
      | seq l => simp [mergeValue, hdk, notSeqDup]
  | str s =>
    cases hdk : lookupE dst key with
    | none => simp [mergeValue, hdk, notSeqDup]
    | some dv =>
      simp only [mergeValue, hdk]
      split
      · rfl
      · split
        · rfl
        · rfl
  | num n =>
    cases hdk : lookupE dst key with
    | none => simp [mergeValue, hdk, notSeqDup]
    | some dv =>
      simp only [mergeValue, hdk]
      split
      · rfl
      · split
        · rfl
        · rfl
  | boolv b =>
    cases hdk : lookupE dst key with
    | none => simp [mergeValue, hdk, notSeqDup]
    | some dv =>
      simp only [mergeValue, hdk]
      split
      · rfl
      · split
        · rfl
        · rfl
  | null =>
    cases hdk : lookupE dst key with
    | none => simp [mergeValue, hdk, notSeqDup]
    | some dv =>
      simp only [mergeValue, hdk]
      split
      · rfl
      · split
        · rfl
        · rfl

/-- The whole merge never returns the sequence duplicate-key error. -/
lemma mergeMapping_notSeqDup (mp : MergePolicy) (dst src : EntryList) (cp : String) :
    notSeqDup (mergeMapping mp dst src cp) = true := by
  cases src with
  | nil => simp [mergeMapping, notSeqDup]
  | cons k v rest =>
    simp only [mergeMapping]
    cases hv : mergeValue mp dst k v cp with
    | error e =>
      have h := mergeValue_notSeqDup mp dst k v cp
      rw [hv] at h
      exact h
    | ok d2 => exact mergeMapping_notSeqDup mp d2 rest cp
end

/-- C9: the `exists && isOverwrite` branch of the sequence case is
unreachable — for every input, `mergeMapping` never reports the sequence
duplicate-key error (format "key[...] duplicated (overrwrite=false)"):
a source Sequence is inserted, concatenated or replaced, or rejected
with a structural-type-mismatch error. -/
theorem c9_seq_duplicate_error_unreachable :
    ∀ (mp : MergePolicy) (dst src : EntryList) (cp : String),
      notSeqDup (mergeMapping mp dst src cp) = true :=
  mergeMapping_notSeqDup

/-- The `updated` slice never has more elements than the sequence. -/
lemma lengthVL_resolvePathsUpdated_le (mp : MergePolicy) (fr cp : String) :
    ∀ vs : ValueList, lengthVL (resolvePathsUpdated mp vs fr cp) ≤ lengthVL vs := by
  intro vs
  induction vs using ValueList.recAux with
  | nil => simp [resolvePathsUpdated]
  | cons v rest ih =>
    simp only [resolvePathsUpdated]
    cases h2 : (resolvePathsValue mp v fr cp).2 with
    | some w => simp only [lengthVL]; omega
    | none => simp only [lengthVL]; omega

/-- The `len(updated) == len(v)` test of the sequence case holds exactly
when every element produced a replacement. -/
lemma lengthVL_resolvePathsUpdated_eq_iff (mp : MergePolicy) (fr cp : String) :
    ∀ vs : ValueList,
      lengthVL (resolvePathsUpdated mp vs fr cp) = lengthVL vs ↔
        ∀ v, memVL v vs → ((resolvePathsValue mp v fr cp).2).isSome = true := by
  intro vs
  induction vs using ValueList.recAux with
  | nil => simp [resolvePathsUpdated, memVL]
  | cons v rest ih =>
    simp only [resolvePathsUpdated]
    cases h2 : (resolvePathsValue mp v fr cp).2 with
    | some w =>
      simp only [lengthVL, Nat.add_right_cancel_iff, ih, memVL]
      constructor
      · rintro h u (rfl | hu)
        · rw [h2]; rfl
        · exact h u hu
      · intro h u hu
        exact h u (Or.inr hu)
    | none =>
      constructor
      · intro h
        exfalso
        have hle := lengthVL_resolvePathsUpdated_le mp fr cp rest
        simp only [lengthVL] at h
        omega
      · intro h
        exfalso
        have hv := h v (by simp [memVL])
        rw [h2] at hv
        exact Bool.noConfusion hv

/-- C7 (amended): during path resolution a sequence produces a wholesale
replacement exactly when every one of its elements produced one; when
any element fails, the sequence's own replacement is withheld (no error
is possible — the pass is total), though rewrites already applied inside
its Mapping elements persist. -/
theorem c7_amended_all_or_nothing (mp : MergePolicy) (vs : ValueList) (fr cp : String) :
    ((resolvePathsValue mp (.seq vs) fr cp).2).isSome = true ↔
      ∀ v, memVL v vs → ((resolvePathsValue mp v fr cp).2).isSome = true := by
  have hstep : ((resolvePathsValue mp (.seq vs) fr cp).2).isSome = true ↔
      lengthVL (resolvePathsUpdated mp vs fr cp) = lengthVL vs := by
    simp only [resolvePathsValue]
    split
    next h => simp [h]
    next h => simp [h]
  rw [hstep]
  exact lengthVL_resolvePathsUpdated_eq_iff mp fr cp vs

/-- C7 counterexample: with resolve pattern `.b` and source directory
`d`, the document `{a:[{b:"f"}, 1]}` has elements that fail to rewrite
(the mapping itself and the scalar `1`), so the sequence is not
replaced — yet it is NOT left completely untouched: the string inside
its mapping element has been rewritten in place to `d/f`. -/
theorem c7_counterexample_mapping_element_rewritten :
    buildPolicy {ResolvePath := [".b"]} = .ok ⟨[], false, [⟨".b", true, true⟩]⟩ ∧
    resolvePaths ⟨[], false, [⟨".b", true, true⟩]⟩
        (.cons "a" (.seq (.cons (.mapv (.cons "b" (.str "f") .nil))
          (.cons (.num 1) .nil))) .nil) "d" "$"
      = .cons "a" (.seq (.cons (.mapv (.cons "b" (.str "d/f") .nil))
          (.cons (.num 1) .nil))) .nil ∧
    (.cons "a" (.seq (.cons (.mapv (.cons "b" (.str "d/f") .nil))
        (.cons (.num 1) .nil))) .nil : EntryList)
      ≠ .cons "a" (.seq (.cons (.mapv (.cons "b" (.str "f") .nil))
          (.cons (.num 1) .nil))) .nil :=
  ⟨rfl, rfl, by decide⟩

/-- Indexing commutes with the element pass: position `i` of the
side-effected sequence is the side-effected element `i`. -/
lemma getVL?_resolvePathsElems (mp : MergePolicy) (fr cp : String) :
    ∀ (vs : ValueList) (i : Nat) (v : Value), getVL? vs i = some v →
      getVL? (resolvePathsElems mp vs fr cp) i
        = some (resolvePathsValue mp v fr cp).1 := by
  intro vs
  induction vs using ValueList.recAux with
  | nil => intro i v h; exact Option.noConfusion h
  | cons w rest ih =>
    intro i v h
    cases i with
    | zero =>
      injection h with h
      subst h
      rfl
    | succ n => exact ih n v h

/-- Indexing implies membership. -/
lemma getVL?_memVL : ∀ (vs : ValueList) (i : Nat) (v : Value),
    getVL? vs i = some v → memVL v vs := by
  intro vs
  induction vs using ValueList.recAux with
  | nil => intro i v h; exact Option.noConfusion h
  | cons w rest ih =>
    intro i v h
    cases i with
    | zero =>
      injection h with h
      exact Or.inl h.symm
    | succ n => exact Or.inr (ih n v h)

/-- C10: a Mapping element of a sequence is still recursively resolved in
place — position `i` of the pass result holds `resolvePaths` of the
element, whose inner keys extend the sequence's own context path — while
the sequence reports not-rewritten (`none`): the all-or-nothing no-op
concerns only the sequence's direct replacement. -/
theorem c10_sequence_mapping_elements_resolved (mp : MergePolicy) (vs : ValueList)
    (fr cp : String) (i : Nat) (m : EntryList)
    (h : getVL? vs i = some (.mapv m)) :
    (resolvePathsValue mp (.seq vs) fr cp).2 = none ∧
    (resolvePathsValue mp (.seq vs) fr cp).1 = .seq (resolvePathsElems mp vs fr cp) ∧
    getVL? (resolvePathsElems mp vs fr cp) i
      = some (.mapv (resolvePaths mp m fr cp)) := by
  refine ⟨?_, rfl, ?_⟩
  · have hmem : memVL (.mapv m) vs := getVL?_memVL vs i (.mapv m) h
    simp only [resolvePathsValue]
    split
    next hlen =>
      exfalso
      have hall := (lengthVL_resolvePathsUpdated_eq_iff mp fr cp vs).mp hlen
      have hv := hall (.mapv m) hmem
      exact Bool.noConfusion hv
    next => rfl
  · exact getVL?_resolvePathsElems mp fr cp vs i (.mapv m) h

/-- C10 witness: in `[{b:"f"}, 1]` under resolve pattern `.b` at context
path `$.a`, the mapping element at position 0 comes out with `b`
rewritten to `d/f` (its key extended the sequence's path to `$.a.b`),
while the sequence itself reports not-rewritten. -/
theorem c10_sequence_mapping_elements_resolved_witness :
    (resolvePathsValue ⟨[], false, [⟨".b", true, true⟩]⟩
        (.seq (.cons (.mapv (.cons "b" (.str "f") .nil)) (.cons (.num 1) .nil)))
        "d" "$.a").2 = none ∧
    (resolvePathsValue ⟨[], false, [⟨".b", true, true⟩]⟩
        (.seq (.cons (.mapv (.cons "b" (.str "f") .nil)) (.cons (.num 1) .nil)))
        "d" "$.a").1
      = .seq (resolvePathsElems ⟨[], false, [⟨".b", true, true⟩]⟩
          (.cons (.mapv (.cons "b" (.str "f") .nil)) (.cons (.num 1) .nil)) "d" "$.a") ∧
    getVL? (resolvePathsElems ⟨[], false, [⟨".b", true, true⟩]⟩
        (.cons (.mapv (.cons "b" (.str "f") .nil)) (.cons (.num 1) .nil)) "d" "$.a") 0
      = some (.mapv (resolvePaths ⟨[], false, [⟨".b", true, true⟩]⟩
          (.cons "b" (.str "f") .nil) "d" "$.a")) :=
  c10_sequence_mapping_elements_resolved ⟨[], false, [⟨".b", true, true⟩]⟩
    (.cons (.mapv (.cons "b" (.str "f") .nil)) (.cons (.num 1) .nil)) "d" "$.a" 0
    (.cons "b" (.str "f") .nil) rfl
